import Mathlib

/-!
Verification of the differential-drive base controller
(`ubr_controllers/src/base_controller.cpp`).

The development shallowly embeds the controller's pure computation:
velocity ramping (acceleration limiting), odometry integration, the
preempt predicate, the wheel-command mixer, and the full per-tick
`update` state transition.  Exact arithmetic (`ℚ` for the purely
rational components, `ℝ` where trigonometry is involved) stands in for
the C++ `double`s; a separate NaN-aware value domain is used where NaN
propagation itself is the question.
-/

namespace UbrBase

/-- One axis of the acceleration limiter from `BaseController::update`
(lines 163-186): if the desired value is above the last sent value,
step up by `accel * dt` and clamp down to the desired value, otherwise
step down by `accel * dt` and clamp up to the desired value. -/
def rampStep {α : Type} [LinearOrderedField α] (desired last accel dt : α) : α :=
  if desired > last then
    if last + accel * dt > desired then desired else last + accel * dt
  else
    if last - accel * dt < desired then desired else last - accel * dt

/-- A planar twist: linear and angular velocity, as in
`geometry_msgs::Twist` restricted to the two axes the controller uses. -/
structure Twist (α : Type) where
  vLinear : α
  vAngular : α
  deriving DecidableEq, Repr

/-- The two-axis velocity ramp of `BaseController::update`: the linear
and angular axes are limited independently, each by its own maximum
acceleration. -/
def advance {α : Type} [LinearOrderedField α] (desired issued : Twist α)
    (ax ar dt : α) : Twist α :=
  { vLinear := rampStep desired.vLinear issued.vLinear ax dt,
    vAngular := rampStep desired.vAngular issued.vAngular ar dt }

/-- `n` repetitions of the one-axis ramp step with a fixed desired
value, acceleration and elapsed time. -/
def rampIter {α : Type} [LinearOrderedField α] (desired accel dt : α) :
    ℕ → α → α
  | 0, x => x
  | n + 1, x => rampStep desired (rampIter desired accel dt n x) accel dt

/-- `n` repetitions of the two-axis ramp with a fixed desired twist. -/
def advanceIter {α : Type} [LinearOrderedField α] (desired : Twist α)
    (ax ar dt : α) : ℕ → Twist α → Twist α
  | 0, t => t
  | n + 1, t => advance desired (advanceIter desired ax ar dt n t) ax ar dt

section RampLemmas

variable {α : Type} [LinearOrderedField α]

theorem rampStep_of_le (d x a dt : α) (h : 0 ≤ a * dt) (hx : x ≤ d) :
    rampStep d x a dt = min (x + a * dt) d := by
  unfold rampStep
  rcases lt_or_eq_of_le hx with hlt | heq
  · rw [if_pos hlt]
    split_ifs with h2
    · exact (min_eq_right (le_of_lt h2)).symm
    · exact (min_eq_left (not_lt.mp h2)).symm
  · subst heq
    rw [if_neg (lt_irrefl x)]
    split_ifs with h2
    · exact (min_eq_right (by linarith)).symm
    · have : x - a * dt = x := by
        have := not_lt.mp h2
        linarith
      rw [this, (min_eq_right (by linarith) : min (x + a * dt) x = x)]

theorem rampStep_of_ge (d x a dt : α) (_h : 0 ≤ a * dt) (hx : d ≤ x) :
    rampStep d x a dt = max (x - a * dt) d := by
  unfold rampStep
  rw [if_neg (not_lt.mpr hx)]
  split_ifs with h2
  · exact (max_eq_right (le_of_lt h2)).symm
  · exact (max_eq_left (not_lt.mp h2)).symm

theorem rampStep_self (d a dt : α) (h : 0 ≤ a * dt) :
    rampStep d d a dt = d := by
  rw [rampStep_of_le d d a dt h le_rfl]
  exact min_eq_right (by linarith)

theorem abs_rampStep_sub_le (d x a dt : α) (h : 0 ≤ a * dt) :
    |rampStep d x a dt - x| ≤ a * dt := by
  rcases le_total x d with hx | hx
  · rw [rampStep_of_le d x a dt h hx, abs_le]
    constructor
    · have h1 : x ≤ min (x + a * dt) d := le_min (by linarith) hx
      linarith
    · have h2 : min (x + a * dt) d ≤ x + a * dt := min_le_left _ _
      linarith
  · rw [rampStep_of_ge d x a dt h hx, abs_le]
    constructor
    · have h2 : x - a * dt ≤ max (x - a * dt) d := le_max_left _ _
      linarith
    · have h1 : max (x - a * dt) d ≤ x := max_le (by linarith) hx
      linarith

theorem rampIter_of_le (d a dt : α) (h : 0 ≤ a * dt) (x : α) (hx : x ≤ d) :
    ∀ n : ℕ, rampIter d a dt n x = min (x + (n : α) * (a * dt)) d := by
  intro n
  induction n with
  | zero => simp [rampIter, min_eq_left hx]
  | succ n ih =>
    have hle : min (x + (n : α) * (a * dt)) d ≤ d := min_le_right _ _
    rw [rampIter, ih, rampStep_of_le d _ a dt h hle]
    rcases le_total (x + (n : α) * (a * dt)) d with hc | hc
    · rw [min_eq_left hc]
      congr 1
      push_cast
      ring
    · rw [min_eq_right hc]
      have h1 : min (d + a * dt) d = d := min_eq_right (by linarith)
      have h2 : min (x + ((n : α) + 1) * (a * dt)) d = d :=
        min_eq_right (by nlinarith)
      rw [h1]
      push_cast [h2]
      rfl

theorem rampIter_of_ge (d a dt : α) (h : 0 ≤ a * dt) (x : α) (hx : d ≤ x) :
    ∀ n : ℕ, rampIter d a dt n x = max (x - (n : α) * (a * dt)) d := by
  intro n
  induction n with
  | zero => simp [rampIter, max_eq_left hx]
  | succ n ih =>
    have hle : d ≤ max (x - (n : α) * (a * dt)) d := le_max_right _ _
    rw [rampIter, ih, rampStep_of_ge d _ a dt h hle]
    rcases le_total d (x - (n : α) * (a * dt)) with hc | hc
    · rw [max_eq_left hc]
      congr 1
      push_cast
      ring
    · rw [max_eq_right hc]
      have h1 : max (d - a * dt) d = d := max_eq_right (by linarith)
      have h2 : max (x - ((n : α) + 1) * (a * dt)) d = d :=
        max_eq_right (by nlinarith)
      rw [h1]
      push_cast [h2]
      rfl

theorem rampIter_mem_interval (d a dt : α) (h : 0 ≤ a * dt) (x : α) (n : ℕ) :
    min x d ≤ rampIter d a dt n x ∧ rampIter d a dt n x ≤ max x d := by
  have hn : 0 ≤ (n : α) * (a * dt) := by positivity
  rcases le_total x d with hx | hx
  · rw [rampIter_of_le d a dt h x hx n]
    constructor
    · exact le_min (by rw [min_eq_left hx]; linarith)
        (by rw [min_eq_left hx]; exact hx)
    · exact le_trans (min_le_right _ _) (le_max_right _ _)
  · rw [rampIter_of_ge d a dt h x hx n]
    constructor
    · exact le_trans (min_le_right _ _) (le_max_right _ _)
    · exact max_le (by rw [max_eq_left hx]; linarith)
        (by rw [max_eq_left hx]; exact hx)

theorem rampIter_dist_mono (d a dt : α) (h : 0 ≤ a * dt) (x : α) (n : ℕ) :
    |d - rampIter d a dt (n + 1) x| ≤ |d - rampIter d a dt n x| := by
  have hn : 0 ≤ (n : α) * (a * dt) := by positivity
  rcases le_total x d with hx | hx
  · rw [rampIter_of_le d a dt h x hx n, rampIter_of_le d a dt h x hx (n + 1)]
    have h1 : min (x + ((n : ℕ) : α) * (a * dt)) d ≤ d := min_le_right _ _
    have h2 : min (x + (((n : ℕ) + 1 : ℕ) : α) * (a * dt)) d ≤ d := min_le_right _ _
    have h3 : min (x + ((n : ℕ) : α) * (a * dt)) d ≤
        min (x + (((n : ℕ) + 1 : ℕ) : α) * (a * dt)) d := by
      apply le_min _ h1
      calc min (x + ((n : ℕ) : α) * (a * dt)) d ≤ x + ((n : ℕ) : α) * (a * dt) :=
            min_le_left _ _
        _ ≤ x + (((n : ℕ) + 1 : ℕ) : α) * (a * dt) := by push_cast; nlinarith
    rw [abs_of_nonneg (by linarith), abs_of_nonneg (by linarith)]
    linarith
  · rw [rampIter_of_ge d a dt h x hx n, rampIter_of_ge d a dt h x hx (n + 1)]
    have h1 : d ≤ max (x - ((n : ℕ) : α) * (a * dt)) d := le_max_right _ _
    have h2 : d ≤ max (x - (((n : ℕ) + 1 : ℕ) : α) * (a * dt)) d := le_max_right _ _
    have h3 : max (x - (((n : ℕ) + 1 : ℕ) : α) * (a * dt)) d ≤
        max (x - ((n : ℕ) : α) * (a * dt)) d := by
      apply max_le _ h1
      calc x - (((n : ℕ) + 1 : ℕ) : α) * (a * dt)
          ≤ x - ((n : ℕ) : α) * (a * dt) := by push_cast; nlinarith
        _ ≤ max (x - ((n : ℕ) : α) * (a * dt)) d := le_max_left _ _
    rw [abs_of_nonpos (by linarith), abs_of_nonpos (by linarith)]
    linarith

end RampLemmas

theorem rampIter_converged (d a dt : ℚ) (hs : 0 < a * dt) (x : ℚ) (n : ℕ)
    (hn : Int.ceil (|d - x| / (a * dt)) ≤ (n : ℤ)) :
    rampIter d a dt n x = d := by
  have hcast : |d - x| / (a * dt) ≤ (n : ℚ) := by
    have := Int.ceil_le.mp hn
    exact_mod_cast this
  have hbound : |d - x| ≤ (n : ℚ) * (a * dt) :=
    (div_le_iff₀ hs).mp hcast
  rcases le_total x d with hx | hx
  · rw [rampIter_of_le d a dt (le_of_lt hs) x hx n]
    apply min_eq_right
    rw [abs_of_nonneg (by linarith)] at hbound
    linarith
  · rw [rampIter_of_ge d a dt (le_of_lt hs) x hx n]
    apply max_eq_right
    rw [abs_of_nonpos (by linarith)] at hbound
    linarith

theorem advanceIter_eq (desired : Twist ℚ) (ax ar dt : ℚ) (t : Twist ℚ) :
    ∀ n : ℕ, advanceIter desired ax ar dt n t =
      { vLinear := rampIter desired.vLinear ax dt n t.vLinear,
        vAngular := rampIter desired.vAngular ar dt n t.vAngular } := by
  intro n
  induction n with
  | zero => rfl
  | succ n ih => rw [advanceIter, ih]; rfl

theorem rampStep_snap_up {α : Type} [LinearOrderedField α] (d x a dt : α)
    (h1 : x < d) (h2 : d ≤ x + a * dt) : rampStep d x a dt = d := by
  rw [rampStep_of_le d x a dt (by linarith) (le_of_lt h1)]
  exact min_eq_right h2

theorem rampStep_snap_down {α : Type} [LinearOrderedField α] (d x a dt : α)
    (h1 : d < x) (h2 : x - a * dt ≤ d) : rampStep d x a dt = d := by
  have hs : 0 ≤ a * dt := by linarith
  rw [rampStep_of_ge d x a dt hs (le_of_lt h1)]
  exact max_eq_right h2

theorem rampIter_succ_abs_le (d a dt : ℚ) (h : 0 ≤ a * dt) (x : ℚ) (n : ℕ) :
    |rampIter d a dt (n + 1) x - rampIter d a dt n x| ≤ a * dt := by
  have hstep : rampIter d a dt (n + 1) x =
      rampStep d (rampIter d a dt n x) a dt := rfl
  rw [hstep]
  exact abs_rampStep_sub_le d (rampIter d a dt n x) a dt h

/-- **C1.** For every starting issued twist, desired twist and fixed
`elapsed > 0`, the velocity ramp treats the two axes independently, moves
each axis by at most `maxAcceleration_axis * elapsed` per call, snaps
exactly to the desired value when a step would cross it, never overshoots
(every iterate stays between the start and the target and the distance to
the target never grows), and reaches the desired value on each axis in at
most `ceil(|desired - initial| / (maxAcceleration_axis * elapsed))` calls. -/
theorem ramp_convergence (desired issued : Twist ℚ) (ax ar dt : ℚ)
    (hax : 0 < ax) (har : 0 < ar) (hdt : 0 < dt) :
    (∀ t : Twist ℚ, advance desired t ax ar dt =
      { vLinear := rampStep desired.vLinear t.vLinear ax dt,
        vAngular := rampStep desired.vAngular t.vAngular ar dt })
  ∧ (∀ n : ℕ,
      |(advanceIter desired ax ar dt (n + 1) issued).vLinear -
        (advanceIter desired ax ar dt n issued).vLinear| ≤ ax * dt ∧
      |(advanceIter desired ax ar dt (n + 1) issued).vAngular -
        (advanceIter desired ax ar dt n issued).vAngular| ≤ ar * dt)
  ∧ (∀ x : ℚ, x < desired.vLinear → desired.vLinear ≤ x + ax * dt →
      rampStep desired.vLinear x ax dt = desired.vLinear)
  ∧ (∀ x : ℚ, desired.vLinear < x → x - ax * dt ≤ desired.vLinear →
      rampStep desired.vLinear x ax dt = desired.vLinear)
  ∧ (∀ x : ℚ, x < desired.vAngular → desired.vAngular ≤ x + ar * dt →
      rampStep desired.vAngular x ar dt = desired.vAngular)
  ∧ (∀ x : ℚ, desired.vAngular < x → x - ar * dt ≤ desired.vAngular →
      rampStep desired.vAngular x ar dt = desired.vAngular)
  ∧ (∀ n : ℕ,
      min issued.vLinear desired.vLinear ≤
        (advanceIter desired ax ar dt n issued).vLinear ∧
      (advanceIter desired ax ar dt n issued).vLinear ≤
        max issued.vLinear desired.vLinear ∧
      min issued.vAngular desired.vAngular ≤
        (advanceIter desired ax ar dt n issued).vAngular ∧
      (advanceIter desired ax ar dt n issued).vAngular ≤
        max issued.vAngular desired.vAngular)
  ∧ (∀ n : ℕ,
      |desired.vLinear - (advanceIter desired ax ar dt (n + 1) issued).vLinear| ≤
        |desired.vLinear - (advanceIter desired ax ar dt n issued).vLinear| ∧
      |desired.vAngular - (advanceIter desired ax ar dt (n + 1) issued).vAngular| ≤
        |desired.vAngular - (advanceIter desired ax ar dt n issued).vAngular|)
  ∧ (∀ n : ℕ,
      Int.ceil (|desired.vLinear - issued.vLinear| / (ax * dt)) ≤ (n : ℤ) →
      (advanceIter desired ax ar dt n issued).vLinear = desired.vLinear)
  ∧ (∀ n : ℕ,
      Int.ceil (|desired.vAngular - issued.vAngular| / (ar * dt)) ≤ (n : ℤ) →
      (advanceIter desired ax ar dt n issued).vAngular = desired.vAngular) := by
  have hax' : (0 : ℚ) ≤ ax * dt := by positivity
  have har' : (0 : ℚ) ≤ ar * dt := by positivity
  refine ⟨fun t => rfl, fun n => ?_,
    fun x h1 h2 => rampStep_snap_up _ x ax dt h1 h2,
    fun x h1 h2 => rampStep_snap_down _ x ax dt h1 h2,
    fun x h1 h2 => rampStep_snap_up _ x ar dt h1 h2,
    fun x h1 h2 => rampStep_snap_down _ x ar dt h1 h2,
    fun n => ?_, fun n => ?_, fun n hn => ?_, fun n hn => ?_⟩
  · constructor
    · simp only [advanceIter_eq]
      exact rampIter_succ_abs_le _ ax dt hax' _ n
    · simp only [advanceIter_eq]
      exact rampIter_succ_abs_le _ ar dt har' _ n
  · simp only [advanceIter_eq]
    exact ⟨(rampIter_mem_interval _ ax dt hax' _ n).1,
      (rampIter_mem_interval _ ax dt hax' _ n).2,
      (rampIter_mem_interval _ ar dt har' _ n).1,
      (rampIter_mem_interval _ ar dt har' _ n).2⟩
  · simp only [advanceIter_eq]
    exact ⟨rampIter_dist_mono _ ax dt hax' _ n, rampIter_dist_mono _ ar dt har' _ n⟩
  · simp only [advanceIter_eq] at hn ⊢
    exact rampIter_converged _ ax dt (by positivity) _ n hn
  · simp only [advanceIter_eq] at hn ⊢
    exact rampIter_converged _ ar dt (by positivity) _ n hn

theorem ramp_convergence_witness :
    (0 : ℚ) < 1 ∧
    (advanceIter ({ vLinear := 5, vAngular := 3 } : Twist ℚ) 1 1 1 5
        { vLinear := 0, vAngular := 0 }).vLinear = 5 := by
  have h := ramp_convergence ({ vLinear := 5, vAngular := 3 } : Twist ℚ)
    { vLinear := 0, vAngular := 0 } 1 1 1 (by norm_num) (by norm_num) (by norm_num)
  refine ⟨by norm_num, h.2.2.2.2.2.2.2.2.1 5 ?_⟩
  rw [Int.ceil_le]
  norm_num

/-- **C10.** The one-axis ramp step is a fixpoint at the target: if the
issued velocity already equals the desired velocity, the step returns
exactly the desired velocity (the decrement branch subtracts
`accel * dt` and the clamp restores the target). -/
theorem rampStep_fixpoint (desired accel dt : ℚ) (ha : 0 ≤ accel)
    (hdt : 0 ≤ dt) : rampStep desired desired accel dt = desired :=
  rampStep_self desired accel dt (mul_nonneg ha hdt)

theorem rampStep_fixpoint_witness :
    (0 : ℚ) ≤ 2 ∧ rampStep (7 : ℚ) 7 2 3 = 7 :=
  ⟨by norm_num, rampStep_fixpoint 7 2 3 (by norm_num) (by norm_num)⟩

/-- The dead-reckoned planar pose: position in meters, heading in
radians (unwrapped). -/
structure Pose where
  x : ℝ
  y : ℝ
  theta : ℝ

/-- One odometry integration step from `BaseController::update`
(lines 198-209), taking the per-tick wheel displacements in meters
(the raw position deltas already divided by `radians_per_meter_`):
`d = (left_dx + right_dx)/2`, `th = (right_dx - left_dx)/track_width_`,
then `x += d*cos(theta)`, `y += d*sin(theta)`, `theta += th`. -/
noncomputable def odomStep (p : Pose) (leftDx rightDx trackWidth : ℝ) : Pose :=
  { x := p.x + (leftDx + rightDx) / 2 * Real.cos p.theta,
    y := p.y + (leftDx + rightDx) / 2 * Real.sin p.theta,
    theta := p.theta + (rightDx - leftDx) / trackWidth }

/-- `n` odometry ticks with the same per-tick wheel displacements. -/
noncomputable def odomIter (leftDx rightDx trackWidth : ℝ) : ℕ → Pose → Pose
  | 0, p => p
  | n + 1, p => odomStep (odomIter leftDx rightDx trackWidth n p) leftDx rightDx trackWidth

/-- **C2, counterexample.** With `leftDisplacement = 1`,
`rightDisplacement = -1` and `trackWidth = 1`, the integrated heading
change is `-2`, not the `+2 = 2d/trackWidth` the claim predicts. -/
theorem odom_pure_rotation_counterexample :
    (odomStep { x := 0, y := 0, theta := 0 } 1 (-1) 1).theta = -2 ∧
    ((-2 : ℝ) ≠ 2) := by
  constructor
  · simp only [odomStep]
    norm_num
  · norm_num

/-- **C2, amended.** If `leftDisplacement = d` and
`rightDisplacement = -d`, the position is unchanged and the heading
changes by exactly `-2d / trackWidth` (it increases by `2d/trackWidth`
only in the mirrored case `rightDisplacement = d`). -/
theorem odom_pure_rotation (p : Pose) (d tw : ℝ) (_htw : 0 < tw) :
    odomStep p d (-d) tw = { x := p.x, y := p.y, theta := p.theta - 2 * d / tw } := by
  simp only [odomStep, Pose.mk.injEq]
  refine ⟨?_, ?_, ?_⟩ <;> ring

theorem odom_pure_rotation_witness :
    (0 : ℝ) < 1 ∧ odomStep { x := 0, y := 0, theta := 0 } 1 (-1) 1 =
      { x := 0, y := 0, theta := 0 - 2 * 1 / 1 } :=
  ⟨by norm_num, odom_pure_rotation { x := 0, y := 0, theta := 0 } 1 1 (by norm_num)⟩

/-- **C8.** Starting from `(0, 0, theta0)`, `N` ticks with equal wheel
displacements `d` give `x = N*d*cos(theta0)`, `y = N*d*sin(theta0)` and
an unchanged heading. -/
theorem odom_straight_line (N : ℕ) (d tw t0 : ℝ) (_htw : 0 < tw) :
    odomIter d d tw N { x := 0, y := 0, theta := t0 } =
      { x := (N : ℝ) * d * Real.cos t0, y := (N : ℝ) * d * Real.sin t0,
        theta := t0 } := by
  induction N with
  | zero => simp [odomIter]
  | succ n ih =>
    rw [odomIter, ih]
    simp only [odomStep, Pose.mk.injEq]
    refine ⟨?_, ?_, ?_⟩ <;> push_cast <;> ring

theorem odom_straight_line_witness :
    (0 : ℝ) < 1 ∧ odomIter 2 2 1 1 { x := 0, y := 0, theta := 0 } =
      { x := ((1 : ℕ) : ℝ) * 2 * Real.cos 0, y := ((1 : ℕ) : ℝ) * 2 * Real.sin 0,
        theta := 0 } :=
  ⟨by norm_num, odom_straight_line 1 2 1 0 (by norm_num)⟩

/-- Left wheel setpoint from `BaseController::update` line 215 composed
with the `radians_per_meter_` scaling of `setCommand` (line 256). -/
def mixLeft (vLinear vAngular trackWidth radiansPerMeter : ℚ) : ℚ :=
  (vLinear - vAngular / 2 * trackWidth) * radiansPerMeter

/-- Right wheel setpoint from `BaseController::update` line 216 composed
with the `radians_per_meter_` scaling of `setCommand` (line 257). -/
def mixRight (vLinear vAngular trackWidth radiansPerMeter : ℚ) : ℚ :=
  (vLinear + vAngular / 2 * trackWidth) * radiansPerMeter

/-- The inverse reconstruction named by the claim (and used, on the
feedback side, by lines 191-204 of the source): undo the
`radiansPerMeter` scale, then `forward = (l + r)/2`. -/
def invForward (l r radiansPerMeter : ℚ) : ℚ :=
  (l / radiansPerMeter + r / radiansPerMeter) / 2

/-- The inverse reconstruction named by the claim: undo the
`radiansPerMeter` scale, then `turn = (r - l)/trackWidth`. -/
def invTurn (l r trackWidth radiansPerMeter : ℚ) : ℚ :=
  (r / radiansPerMeter - l / radiansPerMeter) / trackWidth

/-- **C6.** Mixing `(vLinear, vAngular)` into wheel setpoints and then
applying the inverse reconstruction recovers the original pair exactly,
over exact arithmetic, whenever `trackWidth ≠ 0` and
`radiansPerMeter ≠ 0`. -/
theorem mixer_inverse (vx vr tw rpm : ℚ) (htw : tw ≠ 0) (hrpm : rpm ≠ 0) :
    invForward (mixLeft vx vr tw rpm) (mixRight vx vr tw rpm) rpm = vx ∧
    invTurn (mixLeft vx vr tw rpm) (mixRight vx vr tw rpm) tw rpm = vr := by
  constructor
  · unfold invForward mixLeft mixRight
    field_simp
    ring
  · unfold invTurn mixLeft mixRight
    field_simp
    ring

theorem mixer_inverse_witness :
    invForward (mixLeft 1 2 3 5) (mixRight 1 2 3 5) 5 = 1 ∧
    invTurn (mixLeft 1 2 3 5) (mixRight 1 2 3 5) 3 5 = 2 :=
  mixer_inverse 1 2 3 5 (by norm_num) (by norm_num)

/-- The configuration read once in `BaseController::init` (lines 70-86).
`movingThreshold` is loaded at line 76 but never read afterwards; the
maximum velocities are likewise loaded and unused in this file. -/
structure Config where
  trackWidth : ℝ
  radiansPerMeter : ℝ
  movingThreshold : ℝ
  timeout : ℝ
  maxVelocityX : ℝ
  maxVelocityR : ℝ
  maxAccelerationX : ℝ
  maxAccelerationR : ℝ

/-- The mutable members of `BaseController` touched by `preempt` and
`update`: the command cell (`desired_x_`, `desired_r_`,
`last_command_`), the ramp state (`last_sent_x_`, `last_sent_r_`), the
retained wheel positions, and the stored odometry message
(`odom_.pose.pose.position`, `odom_.pose.pose.orientation`, `theta_`,
`odom_.twist.twist`), plus `last_update_` and `initialized_`. -/
structure State where
  initialized : Bool
  desiredX : ℝ
  desiredR : ℝ
  lastSentX : ℝ
  lastSentR : ℝ
  leftLastPosition : ℝ
  rightLastPosition : ℝ
  theta : ℝ
  odomX : ℝ
  odomY : ℝ
  odomQX : ℝ
  odomQY : ℝ
  odomQZ : ℝ
  odomQW : ℝ
  odomTwistX : ℝ
  odomTwistR : ℝ
  lastUpdate : ℝ
  lastCommand : ℝ

/-- One tick of wheel feedback: cumulative positions (radians) and
instantaneous velocities (radians/sec) of the two wheel joints. -/
structure Feedback where
  leftPosition : ℝ
  rightPosition : ℝ
  leftVelocity : ℝ
  rightVelocity : ℝ

/-- `BaseController::preempt` (lines 133-148): preempt when the command
is stale (`last_update_ - last_command_ >= timeout_`), when nothing is
in motion (both last-sent velocities exactly zero), or when forced. -/
noncomputable def preempt (cfg : Config) (s : State) (force : Bool) : Bool :=
  if s.lastUpdate - s.lastCommand ≥ cfg.timeout then true
  else if s.lastSentX = 0 ∧ s.lastSentR = 0 then true
  else if force then true
  else false

/-- `BaseController::update` (lines 150-227) as a pure state
transition.  Returns the boolean result, the successor state, and the
wheel setpoints written by `setCommand` (already scaled by
`radians_per_meter_`, lines 253-258), or `none` when the write is
skipped.  The `0.05` bounds of the write gate are the hard-coded
constants of line 213. -/
noncomputable def update (cfg : Config) (s : State) (now : ℝ) (fb : Feedback) :
    Bool × State × Option (ℝ × ℝ) :=
  if s.initialized = false then (false, s, none) else
  let desiredX := if now - s.lastCommand ≥ cfg.timeout then 0 else s.desiredX
  let desiredR := if now - s.lastCommand ≥ cfg.timeout then 0 else s.desiredR
  let lastSentX := rampStep desiredX s.lastSentX cfg.maxAccelerationX (now - s.lastUpdate)
  let lastSentR := rampStep desiredR s.lastSentR cfg.maxAccelerationR (now - s.lastUpdate)
  let leftDx := (fb.leftPosition - s.leftLastPosition) / cfg.radiansPerMeter
  let rightDx := (fb.rightPosition - s.rightLastPosition) / cfg.radiansPerMeter
  let leftVel := fb.leftVelocity / cfg.radiansPerMeter
  let rightVel := fb.rightVelocity / cfg.radiansPerMeter
  let d := (leftDx + rightDx) / 2
  let th := (rightDx - leftDx) / cfg.trackWidth
  let dx := (leftVel + rightVel) / 2
  let dr := (rightVel - leftVel) / cfg.trackWidth
  let theta := s.theta + th
  let written :=
    if lastSentX ≠ 0 ∨ lastSentR ≠ 0 ∨ |dx| > 0.05 ∨ |dr| > 0.05 then
      some ((lastSentX - lastSentR / 2 * cfg.trackWidth) * cfg.radiansPerMeter,
            (lastSentX + lastSentR / 2 * cfg.trackWidth) * cfg.radiansPerMeter)
    else none
  (true,
   { s with
      desiredX := desiredX, desiredR := desiredR,
      lastSentX := lastSentX, lastSentR := lastSentR,
      leftLastPosition := fb.leftPosition, rightLastPosition := fb.rightPosition,
      odomX := s.odomX + d * Real.cos s.theta,
      odomY := s.odomY + d * Real.sin s.theta,
      theta := theta,
      odomQZ := Real.sin (theta / 2), odomQW := Real.cos (theta / 2),
      odomTwistX := dx, odomTwistR := dr,
      lastUpdate := now },
   written)

/-- **C3.** The preempt predicate is true exactly when the command is
stale, the last-issued twist is exactly zero on both axes, or the stop
is forced; with a nonzero issued twist and `force` unset it is true
exactly for evaluation times at or beyond `lastCommand + timeout`. -/
theorem preempt_spec (cfg : Config) (s : State) (force : Bool) :
    (preempt cfg s force = true ↔
      (cfg.timeout ≤ s.lastUpdate - s.lastCommand ∨
        (s.lastSentX = 0 ∧ s.lastSentR = 0) ∨ force = true))
  ∧ ((s.lastSentX ≠ 0 ∨ s.lastSentR ≠ 0) → force = false →
      (preempt cfg s force = true ↔
        s.lastCommand + cfg.timeout ≤ s.lastUpdate)) := by
  constructor
  · unfold preempt
    split_ifs with h1 h2 h3 <;> simp_all
  · intro hnz hforce
    subst hforce
    unfold preempt
    split_ifs with h1 h2 h3
    · constructor
      · intro _
        rw [ge_iff_le] at h1
        linarith
      · intro _
        rfl
    · rcases hnz with h | h
      · exact absurd h2.1 h
      · exact absurd h2.2 h
    · simp at h3
    · constructor
      · intro habs
        simp at habs
      · intro hle
        exfalso
        rw [ge_iff_le, not_le] at h1
        linarith

/-- Shared concrete configuration for witnesses. -/
noncomputable def sampleCfg : Config :=
  { trackWidth := 1, radiansPerMeter := 1, movingThreshold := 1 / 10000,
    timeout := 1, maxVelocityX := 1, maxVelocityR := 45 / 10,
    maxAccelerationX := 1, maxAccelerationR := 1 }

/-- Shared concrete controller state for witnesses. -/
noncomputable def sampleState : State :=
  { initialized := true, desiredX := 5, desiredR := 5,
    lastSentX := 2, lastSentR := 2,
    leftLastPosition := 0, rightLastPosition := 0, theta := 0,
    odomX := 0, odomY := 0, odomQX := 0, odomQY := 0, odomQZ := 0,
    odomQW := 1, odomTwistX := 0, odomTwistR := 0,
    lastUpdate := 3, lastCommand := 0 }

/-- Shared concrete wheel feedback for witnesses. -/
noncomputable def sampleFb : Feedback :=
  { leftPosition := 0, rightPosition := 0, leftVelocity := 0, rightVelocity := 0 }

theorem preempt_spec_witness : preempt sampleCfg sampleState false = true :=
  ((preempt_spec sampleCfg sampleState false).2
      (Or.inl (by norm_num [sampleState])) rfl).mpr
    (by norm_num [sampleState, sampleCfg])

/-- **C5.** When the command has timed out at the start of an update,
the desired velocities are zeroed for that tick, the issued velocities
follow the normal acceleration-bounded ramp toward zero (each changes by
at most `maxAcceleration * elapsed`), and the update still returns
success. -/
theorem timeout_ramped_stop (cfg : Config) (s : State) (now : ℝ) (fb : Feedback)
    (hinit : s.initialized = true)
    (htimeout : now - s.lastCommand ≥ cfg.timeout)
    (hax : 0 ≤ cfg.maxAccelerationX) (har : 0 ≤ cfg.maxAccelerationR)
    (hdt : 0 ≤ now - s.lastUpdate) :
    (update cfg s now fb).1 = true
  ∧ (update cfg s now fb).2.1.desiredX = 0
  ∧ (update cfg s now fb).2.1.desiredR = 0
  ∧ (update cfg s now fb).2.1.lastSentX =
      rampStep 0 s.lastSentX cfg.maxAccelerationX (now - s.lastUpdate)
  ∧ (update cfg s now fb).2.1.lastSentR =
      rampStep 0 s.lastSentR cfg.maxAccelerationR (now - s.lastUpdate)
  ∧ |(update cfg s now fb).2.1.lastSentX - s.lastSentX| ≤
      cfg.maxAccelerationX * (now - s.lastUpdate)
  ∧ |(update cfg s now fb).2.1.lastSentR - s.lastSentR| ≤
      cfg.maxAccelerationR * (now - s.lastUpdate) := by
  have h1 : ¬(s.initialized = false) := by simp [hinit]
  simp only [update, if_neg h1, if_pos htimeout]
  refine ⟨by trivial, by trivial, by trivial, by trivial, by trivial, ?_, ?_⟩
  · exact abs_rampStep_sub_le _ _ _ _ (mul_nonneg hax hdt)
  · exact abs_rampStep_sub_le _ _ _ _ (mul_nonneg har hdt)

theorem timeout_ramped_stop_witness :
    (update sampleCfg sampleState 5 sampleFb).1 = true ∧
    |(update sampleCfg sampleState 5 sampleFb).2.1.lastSentX -
        sampleState.lastSentX| ≤
      sampleCfg.maxAccelerationX * (5 - sampleState.lastUpdate) := by
  have h := timeout_ramped_stop sampleCfg sampleState 5 sampleFb rfl
    (by norm_num [sampleState, sampleCfg]) (by norm_num [sampleCfg])
    (by norm_num [sampleCfg]) (by norm_num [sampleState])
  exact ⟨h.1, h.2.2.2.2.2.1⟩

/-- **C9.** After an update from any state whose quaternion `x` and `y`
components are zero (as they are from construction on, since the update
never touches them), the published orientation is the pure-z unit
quaternion of the accumulated heading: `x = y = 0`, `z = sin(theta/2)`,
`w = cos(theta/2)`, and `z^2 + w^2 = 1`. -/
theorem quaternion_pure_z (cfg : Config) (s : State) (now : ℝ) (fb : Feedback)
    (hinit : s.initialized = true)
    (hqx : s.odomQX = 0) (hqy : s.odomQY = 0) :
    (update cfg s now fb).2.1.odomQX = 0
  ∧ (update cfg s now fb).2.1.odomQY = 0
  ∧ (update cfg s now fb).2.1.odomQZ =
      Real.sin ((update cfg s now fb).2.1.theta / 2)
  ∧ (update cfg s now fb).2.1.odomQW =
      Real.cos ((update cfg s now fb).2.1.theta / 2)
  ∧ (update cfg s now fb).2.1.odomQZ ^ 2 +
      (update cfg s now fb).2.1.odomQW ^ 2 = 1 := by
  have h1 : ¬(s.initialized = false) := by simp [hinit]
  simp only [update, if_neg h1]
  exact ⟨hqx, hqy, by trivial, by trivial, Real.sin_sq_add_cos_sq _⟩

theorem quaternion_pure_z_witness :
    (update sampleCfg sampleState 5 sampleFb).2.1.odomQX = 0 ∧
    (update sampleCfg sampleState 5 sampleFb).2.1.odomQZ ^ 2 +
      (update sampleCfg sampleState 5 sampleFb).2.1.odomQW ^ 2 = 1 := by
  have h := quaternion_pure_z sampleCfg sampleState 5 sampleFb rfl rfl rfl
  exact ⟨h.1, h.2.2.2.2⟩

theorem gate_none_iff (x r dx dr l rr : ℝ) :
    ((if x ≠ 0 ∨ r ≠ 0 ∨ |dx| > 0.05 ∨ |dr| > 0.05 then
        some (l, rr) else none) = none ↔
      (x = 0 ∧ r = 0 ∧ |dx| ≤ 0.05 ∧ |dr| ≤ 0.05)) := by
  split_ifs with hg
  · constructor
    · intro habs
      simp at habs
    · intro hrhs
      rcases hg with h | h | h | h
      · exact absurd hrhs.1 h
      · exact absurd hrhs.2.1 h
      · exact absurd hrhs.2.2.1 (not_le.mpr h)
      · exact absurd hrhs.2.2.2 (not_le.mpr h)
  · push_neg at hg
    exact iff_of_true rfl hg

/-- **C7, amended.** The actuator write is skipped exactly when the
issued twist is exactly zero on both axes and both axes of the measured
twist have absolute value at most the hard-coded `0.05` of line 213; the
configured moving threshold plays no role, and any nonzero issued
velocity forces a write however small it is. -/
theorem write_gate (cfg : Config) (s : State) (now : ℝ) (fb : Feedback)
    (hinit : s.initialized = true) :
    ((update cfg s now fb).2.2 = none ↔
      ((update cfg s now fb).2.1.lastSentX = 0 ∧
       (update cfg s now fb).2.1.lastSentR = 0 ∧
       |(update cfg s now fb).2.1.odomTwistX| ≤ 0.05 ∧
       |(update cfg s now fb).2.1.odomTwistR| ≤ 0.05)) := by
  have h1 : ¬(s.initialized = false) := by simp [hinit]
  simp only [update, if_neg h1]
  exact gate_none_iff _ _ _ _ _ _

/-- Concrete configuration for the write-gate counterexample, with the
default `moving_threshold` of `0.0001` from line 76. -/
noncomputable def gateCfg : Config :=
  { trackWidth := 1, radiansPerMeter := 1, movingThreshold := 1 / 10000,
    timeout := 1, maxVelocityX := 1, maxVelocityR := 45 / 10,
    maxAccelerationX := 1, maxAccelerationR := 1 }

/-- Idle controller state (nothing issued, nothing desired) for the
write-gate counterexample. -/
noncomputable def gateState : State :=
  { initialized := true, desiredX := 0, desiredR := 0,
    lastSentX := 0, lastSentR := 0,
    leftLastPosition := 0, rightLastPosition := 0, theta := 0,
    odomX := 0, odomY := 0, odomQX := 0, odomQY := 0, odomQZ := 0,
    odomQW := 1, odomTwistX := 0, odomTwistR := 0,
    lastUpdate := 0, lastCommand := 0 }

/-- Feedback whose measured linear velocity is `0.01`: far above the
configured moving threshold `0.0001`, yet below the hard-coded `0.05`. -/
noncomputable def gateFb : Feedback :=
  { leftPosition := 0, rightPosition := 0,
    leftVelocity := 1 / 100, rightVelocity := 1 / 100 }

/-- **C7, counterexample.** With an idle issued twist and a measured
linear velocity of `0.01 > movingThreshold = 0.0001`, the claim demands
a write, but the code skips it (`0.01` is below the hard-coded `0.05`). -/
theorem write_gate_counterexample :
    (update gateCfg gateState 0 gateFb).2.2 = none ∧
    (update gateCfg gateState 0 gateFb).2.1.odomTwistX > gateCfg.movingThreshold := by
  have habs : |(1 : ℝ) / 100| = 1 / 100 := abs_of_nonneg (by norm_num)
  constructor
  · simp only [update, gateCfg, gateState, gateFb, rampStep]
    norm_num [habs]
  · simp only [update, gateCfg, gateState, gateFb, rampStep]
    norm_num

theorem write_gate_witness :
    (update gateCfg gateState 0 sampleFb).2.2 = none := by
  have h := write_gate gateCfg gateState 0 sampleFb rfl
  apply h.mpr
  refine ⟨?_, ?_, ?_, ?_⟩ <;>
  · simp only [update, gateCfg, gateState, sampleFb, rampStep]
    norm_num

/-- A floating-point value abstracted to "NaN or a finite real": NaN
absorbs through every arithmetic operation and through `cos`/`sin`,
as in IEEE-754.  Infinities and signed zeros are not modelled (no use
in this development divides by zero). -/
inductive FVal where
  | nan : FVal
  | fin : ℝ → FVal

/-- NaN-absorbing addition. -/
noncomputable def FVal.add : FVal → FVal → FVal
  | FVal.fin a, FVal.fin b => FVal.fin (a + b)
  | _, _ => FVal.nan

/-- NaN-absorbing subtraction. -/
noncomputable def FVal.sub : FVal → FVal → FVal
  | FVal.fin a, FVal.fin b => FVal.fin (a - b)
  | _, _ => FVal.nan

/-- NaN-absorbing multiplication. -/
noncomputable def FVal.mul : FVal → FVal → FVal
  | FVal.fin a, FVal.fin b => FVal.fin (a * b)
  | _, _ => FVal.nan

/-- NaN-absorbing division (every divisor in this development is a
nonzero constant). -/
noncomputable def FVal.div : FVal → FVal → FVal
  | FVal.fin a, FVal.fin b => FVal.fin (a / b)
  | _, _ => FVal.nan

/-- NaN-absorbing cosine. -/
noncomputable def FVal.cos : FVal → FVal
  | FVal.fin a => FVal.fin (Real.cos a)
  | FVal.nan => FVal.nan

/-- NaN-absorbing sine. -/
noncomputable def FVal.sin : FVal → FVal
  | FVal.fin a => FVal.fin (Real.sin a)
  | FVal.nan => FVal.nan

/-- The odometry fragment of `BaseController::update` (lines 188-209)
over NaN-aware values: wheel displacements from the position deltas
scaled by `radians_per_meter_`, then the Euler pose update.  Returns
the new `(x, y, theta)`. -/
noncomputable def odomStepF (x y theta leftLast rightLast leftPos rightPos rpm tw : FVal) :
    FVal × FVal × FVal :=
  let leftDx := (leftPos.sub leftLast).div rpm
  let rightDx := (rightPos.sub rightLast).div rpm
  let d := (leftDx.add rightDx).div (FVal.fin 2)
  let th := (rightDx.sub leftDx).div tw
  (x.add (d.mul theta.cos), y.add (d.mul theta.sin), theta.add th)

/-- **C4, code-bug evidence.** A NaN left-wheel position on a tick
(otherwise well-formed state: pose at the origin, previous positions 0,
`radians_per_meter = 2`, `track_width = 1`) drives NaN into all three
persisted pose components; nothing in `update` guards against it. -/
theorem nan_propagates_into_pose :
    odomStepF (FVal.fin 0) (FVal.fin 0) (FVal.fin 0) (FVal.fin 0) (FVal.fin 0)
      FVal.nan (FVal.fin 0) (FVal.fin 2) (FVal.fin 1) =
      (FVal.nan, FVal.nan, FVal.nan) := rfl

end UbrBase
